import Mathlib

/-!
Shallow embedding of the Netflix dashboard application (`app.py`) and proofs
about its data loading, aggregation, plotting and word-cloud preprocessing.

Tables are lists of records; missing fields (`NaN`) are `Option.none`.
-/

namespace NetflixApp

/-! ## Whitespace tokenisation

Used both by the date parser (splitting a date string into its three
space-separated parts) and by the word-cloud tokenisation model. -/

/-- Accumulator-based splitting of a character list into maximal runs of
non-space characters. -/
def splitWordsAux : List Char → List Char → List (List Char)
  | [], acc => if acc = [] then [] else [acc.reverse]
  | c :: cs, acc =>
    if c = ' ' then
      if acc = [] then splitWordsAux cs [] else acc.reverse :: splitWordsAux cs []
    else splitWordsAux cs (c :: acc)

/-- Words of a character list: maximal runs of non-space characters. -/
def splitWords (l : List Char) : List (List Char) :=
  splitWordsAux l []

/-- Value of a decimal digit character. -/
def digitVal (c : Char) : Option Nat :=
  if c.isDigit then some (c.toNat - 48) else none

/-- Decimal number reading, most significant digit first. -/
def parseNatAux : List Char → Nat → Option Nat
  | [], acc => some acc
  | c :: cs, acc =>
    match digitVal c with
    | some v => parseNatAux cs (acc * 10 + v)
    | none => none

/-- Read a nonempty all-digit character list as a natural number. -/
def parseNat (l : List Char) : Option Nat :=
  match l with
  | [] => none
  | _ => parseNatAux l 0

/-! ## Dates

`load_data` runs `pd.to_datetime(col, format='mixed')` over the `date_added`
column.  The dataset writes dates as `"Month D, YYYY"` (possibly with stray
surrounding spaces); the embedding parses exactly that shape, validates the
calendar date, and enforces the pandas `Timestamp` representable range
(1677-09-21 00:12 .. 2262-04-11 23:47, so as whole dates 1677-09-22 .. 2262-04-11);
out-of-range or malformed dates make `to_datetime`, and hence the whole load, fail. -/

structure Date where
  year : Nat
  month : Nat
  day : Nat
deriving DecidableEq, Repr

/-- Gregorian leap-year test. -/
def isLeap (y : Nat) : Bool :=
  y % 4 == 0 && (y % 100 != 0 || y % 400 == 0)

/-- Number of days of month `m` (1..12); `0` outside that range. -/
def monthLength (leap : Bool) (m : Nat) : Nat :=
  match m with
  | 1 => 31
  | 2 => if leap then 29 else 28
  | 3 => 31
  | 4 => 30
  | 5 => 31
  | 6 => 30
  | 7 => 31
  | 8 => 31
  | 9 => 30
  | 10 => 31
  | 11 => 30
  | 12 => 31
  | _ => 0

/-- English month name to month number, as the date parser accepts it. -/
def monthNum (s : String) : Option Nat :=
  match s with
  | "January" => some 1
  | "February" => some 2
  | "March" => some 3
  | "April" => some 4
  | "May" => some 5
  | "June" => some 6
  | "July" => some 7
  | "August" => some 8
  | "September" => some 9
  | "October" => some 10
  | "November" => some 11
  | "December" => some 12
  | _ => none

/-- Calendar validity of a parsed date. -/
def validDate (d : Date) : Bool :=
  1 ≤ d.month && d.month ≤ 12 && 1 ≤ d.day && d.day ≤ monthLength (isLeap d.year) d.month

/-- Numeric key `yyyymmdd` used to compare dates. -/
def dateKey (d : Date) : Nat :=
  d.year * 10000 + d.month * 100 + d.day

/-- Pandas `Timestamp` bound check: representable whole dates run from
1677-09-22 to 2262-04-11; outside them `pd.to_datetime` raises. -/
def inTimestampBounds (d : Date) : Bool :=
  16770921 < dateKey d && dateKey d ≤ 22620411

/-- Validation step shared by every parsed date: calendar validity plus the
pandas representable range. -/
def mkValidDate (y m dd : Nat) : Option Date :=
  if validDate ⟨y, m, dd⟩ && inTimestampBounds ⟨y, m, dd⟩ then some ⟨y, m, dd⟩ else none

/-- Embedding of `pd.to_datetime` on one cell of the `date_added` column:
split the trimmed text into month name, day (with a trailing comma) and
year, then validate the date and the pandas representable range. -/
def parseDate (s : String) : Option Date :=
  match splitWords s.toList with
  | [ms, ds, ys] =>
    match monthNum ⟨ms⟩, ds.getLast? == some ',', parseNat ds.dropLast, parseNat ys with
    | some m, true, some dd, some y => mkValidDate y m dd
    | _, _, _, _ => none
  | _ => none

/-! ## The data model

One CSV row of `netflix_titles.csv`; every cell is a string or missing. -/

structure Record where
  show_id : Option String
  type : Option String
  title : Option String
  director : Option String
  cast : Option String
  country : Option String
  date_added : Option String
  release_year : Option String
  rating : Option String
  duration : Option String
  listed_in : Option String
  description : Option String
deriving DecidableEq, Repr

/-- Column names of the table, used for generic column access. -/
inductive Field where
  | show_id | type | title | director | cast | country | date_added
  | release_year | rating | duration | listed_in | description
deriving DecidableEq, Repr

/-- Generic column access `df[column]` on one row. -/
def Record.get (r : Record) : Field → Option String
  | .show_id => r.show_id
  | .type => r.type
  | .title => r.title
  | .director => r.director
  | .cast => r.cast
  | .country => r.country
  | .date_added => r.date_added
  | .release_year => r.release_year
  | .rating => r.rating
  | .duration => r.duration
  | .listed_in => r.listed_in
  | .description => r.description

/-- All cells of a row, in column order. -/
def Record.cells (r : Record) : List (Option String) :=
  [r.show_id, r.type, r.title, r.director, r.cast, r.country, r.date_added,
   r.release_year, r.rating, r.duration, r.listed_in, r.description]

/-- Row kept by `dropna()`: no cell is missing. -/
def Record.complete (r : Record) : Bool :=
  r.cells.all Option.isSome

/-- Row of the cleaned table: the original cells with the `date_added`
column replaced by its parsed datetime and the three derived integer
columns `day_added`, `year_added`, `month_added` appended. -/
structure Cleaned where
  orig : Record
  date_added : Date
  day_added : Nat
  year_added : Nat
  month_added : Nat
deriving DecidableEq, Repr

/-- Date transformation of one cleaned row, mirroring lines 24-27 of
`app.py`: parse `date_added`, then derive `day_added`, `year_added` and
`month_added` from it. -/
def toCleaned (r : Record) : Option Cleaned :=
  match r.date_added with
  | none => none
  | some ds =>
    match parseDate ds with
    | none => none
    | some d => some ⟨r, d, d.day, d.year, d.month⟩

/-- Row-by-row application of a fallible transformation over a table
column, failing the whole table when any row fails (`pd.to_datetime` with
the default `errors='raise'`). -/
def mapRows {α β : Type} (f : α → Option β) : List α → Option (List β)
  | [] => some []
  | x :: xs =>
    match f x, mapRows f xs with
    | some y, some ys => some (y :: ys)
    | _, _ => none

/-- Embedding of `load_data` (lines 14-29 of `app.py`): the raw table is
the verbatim parse (given here as the list of records), the cleaned table
is `raw.copy().dropna()` with the date transformations applied; any
unparseable `date_added` on a complete row fails the whole load. -/
def load_data (raw : List Record) : Option (List Record × List Cleaned) :=
  match mapRows toCleaned (raw.filter Record.complete) with
  | none => none
  | some cleaned => some (raw, cleaned)

/-! ## Counting and ordering

`Series.value_counts()` counts each distinct non-null value and returns the
pairs sorted by descending count (tie order inherited from the counting
primitive; the embedding uses a stable sort over first-occurrence key order). -/

/-- Distinct values of a list in order of first occurrence, skipping values
already seen. -/
def distinctAux : List String → List String → List String
  | [], _ => []
  | x :: xs, seen =>
    if x ∈ seen then distinctAux xs seen else x :: distinctAux xs (x :: seen)

/-- Distinct values of a list in order of first occurrence. -/
def distinctKeys (l : List String) : List String :=
  distinctAux l []

/-- Descending-count order on (value, count) pairs. -/
def countGE (a b : String × Nat) : Prop := b.2 ≤ a.2

instance : DecidableRel countGE := fun a b => inferInstanceAs (Decidable (b.2 ≤ a.2))

instance : IsTotal (String × Nat) countGE := ⟨fun a b => Nat.le_total b.2 a.2⟩

instance : IsTrans (String × Nat) countGE := ⟨fun _ _ _ h1 h2 => le_trans h2 h1⟩

/-- Embedding of `Series.value_counts()`: drop nulls, count each distinct
value, sort by descending count. -/
def value_counts (xs : List (Option String)) : List (String × Nat) :=
  let vs := xs.filterMap id
  List.insertionSort countGE ((distinctKeys vs).map (fun k => (k, vs.count k)))

/-- Embedding of `sns.countplot` on a column: one bar per distinct non-null
value in first-occurrence order, sized by its count. -/
def countplot (xs : List (Option String)) : List (String × Nat) :=
  let vs := xs.filterMap id
  (distinctKeys vs).map (fun k => (k, vs.count k))

/-! ## Plot functions -/

/-- Rendered pie chart: wedges are (label, size) pairs taken positionally
from the label and size sequences. -/
structure PieChart where
  wedges : List (String × Nat)
  explodeHundredths : List Nat
  shadow : Bool
  startangle : Nat
  autopctDecimals : Nat
deriving DecidableEq, Repr

/-- Embedding of `Axes.pie(size, labels=labels, explode=explode, shadow=True,
startangle=90, autopct='%1.1f%%')`: matplotlib raises `ValueError` when the
label (or explode) sequence length differs from the number of sizes;
otherwise labels attach to sizes positionally.  Explode offsets are encoded
in hundredths of the radius (the source literal `0.05` is `5`). -/
def pie (sizes : List Nat) (labels : List String) (explode : List Nat) :
    Except String PieChart :=
  if labels.length ≠ sizes.length then Except.error "label must be of length x"
  else if explode.length ≠ sizes.length then Except.error "explode must be of length x"
  else Except.ok ⟨labels.zip sizes, explode, true, 90, 1⟩

/-- Output of `plot_type_distribution`. -/
structure TypeDistFig where
  barCounts : List (String × Nat)
  pieChart : PieChart
deriving DecidableEq, Repr

/-- Embedding of `plot_type_distribution` (lines 54-74 of `app.py`):
a countplot of the `type` column next to a pie of
`df['type'].value_counts()` with the hard-coded label list
`['Movie', 'TV Show']` and explode `[0, 0.05]`. -/
def plot_type_distribution (df : List Record) : Except String TypeDistFig :=
  let bar := countplot (df.map (fun r => r.type))
  let labels := ["Movie", "TV Show"]
  let size := value_counts (df.map (fun r => r.type))
  let explode : List Nat := [0, 5]
  match pie (size.map (fun p => p.2)) labels explode with
  | Except.error e => Except.error e
  | Except.ok p => Except.ok ⟨bar, p⟩

/-- Output of `plot_rating_distribution`. -/
structure RatingFig where
  barOrder : List String
  barCounts : List (String × Nat)
  pieWedges : List (String × Nat)
  labelRotation : Nat
  autopctDecimals : Nat
deriving DecidableEq, Repr

/-- Embedding of `plot_rating_distribution` (lines 83-99 of `app.py`):
`rating_order = df['rating'].value_counts().index` orders the bars; the pie
takes the value counts directly (`value_counts().plot.pie`), labels rotated
by 70 degrees, one-decimal percentage labels. -/
def plot_rating_distribution (df : List Record) : RatingFig :=
  let rating_order := (value_counts (df.map (fun r => r.rating))).map (fun p => p.1)
  { barOrder := rating_order
    barCounts := value_counts (df.map (fun r => r.rating))
    pieWedges := value_counts (df.map (fun r => r.rating))
    labelRotation := 70
    autopctDecimals := 1 }

/-- Output of `plot_type_vs_rating`. -/
structure TypeRatingFig where
  xOrder : List String
  groups : List (String × List (String × Nat))
  labelRotation : Nat
deriving DecidableEq, Repr

/-- Embedding of `plot_type_vs_rating` (lines 101-108 of `app.py`):
`sns.countplot(x='rating', hue='type', data=df, order=df['rating'].value_counts().index)`;
for each rating on the x-axis, one bar per type value counting the rows
with that rating and type. -/
def plot_type_vs_rating (df : List Record) : TypeRatingFig :=
  let ord := (value_counts (df.map (fun r => r.rating))).map (fun p => p.1)
  let hues := distinctKeys ((df.map (fun r => r.type)).filterMap id)
  ⟨ord,
   ord.map (fun rt =>
     (rt, hues.map (fun t =>
       (t, (df.filter (fun r => r.rating == some rt && r.type == some t)).length)))),
   70⟩

/-! ## Word clouds

`generate_wordcloud` builds
`text = " ".join(df[column_name].astype(str).str.replace(',', ''))`
and hands `text` to the word-cloud library, which splits it into word
tokens.  The embedding keeps the text construction exactly and models
tokenisation as whitespace splitting. -/

/-- Embedding of `astype(str)` on one cell: a missing value prints as the
string `"nan"`; present values are kept. -/
def astypeStr (o : Option String) : String :=
  match o with
  | none => "nan"
  | some s => s

/-- Embedding of `str.replace(',', '')`: delete every comma character,
inserting nothing in its place. -/
def stripCommas (s : String) : String :=
  ⟨s.toList.filter (fun c => c != ',')⟩

/-- Embedding of `" ".join(values)`. -/
def joinSp : List String → String
  | [] => ""
  | [s] => s
  | s :: s' :: rest => s ++ " " ++ joinSp (s' :: rest)

/-- Word tokens of a text, as the word-cloud library extracts them. -/
def tokens (s : String) : List String :=
  (splitWords s.toList).map (fun w => ⟨w⟩)

/-- Word-cloud input text for a column of the cleaned table, mirroring
line 127 of `app.py`:
`" ".join(df[column_name].astype(str).str.replace(',', ''))`.
(The app only ever selects the four text columns `listed_in`, `country`,
`cast`, `director`, whose cells the cleaned table carries verbatim.) -/
def wordcloudText (df : List Cleaned) (column : Field) : String :=
  joinSp (df.map (fun r => stripCommas (astypeStr (r.orig.get column))))

/-- Rendered word-cloud figure: the text handed to `WordCloud.generate`,
the fixed canvas parameters, and the display title. -/
structure WCFig where
  text : String
  width : Nat
  height : Nat
  background : String
  title : String
deriving DecidableEq, Repr

/-- Embedding of `generate_wordcloud` (lines 122-139 of `app.py`): build the
blob text from the cleaned table's column and render it on a white
1920x1080 canvas under the given title. -/
def generate_wordcloud (df : List Cleaned) (column : Field) (title : String) : WCFig :=
  ⟨wordcloudText df column, 1920, 1080, "white", title⟩

/-! ## Caching

`@st.cache_data` memoizes a function per argument tuple for the process
lifetime: on a hit the stored value is returned without recomputation, on a
miss the function runs and its result is stored. -/

/-- Memoization cache: association list from argument to stored result. -/
abbrev Cache (α β : Type) : Type := List (α × β)

/-- One call through an `@st.cache_data` wrapper: look the argument up; on a
hit return the stored value unchanged, on a miss compute, store and return. -/
def cachedCall {α β : Type} [DecidableEq α] (f : α → β) (c : Cache α β) (x : α) :
    β × Cache α β :=
  match c.find? (fun p => p.1 == x) with
  | some p => (p.2, c)
  | none => (f x, (x, f x) :: c)

/-- Cache consistency: every stored entry is the function's value at its key. -/
def Consistent {α β : Type} (f : α → β) (c : Cache α β) : Prop :=
  ∀ p ∈ c, f p.1 = p.2

/-! ## Heap model of table objects

Python dataframes are mutable objects; `netflix_df = netflix_raw.copy().dropna()`
allocates a fresh object and the four column assignments of `load_data`
write into that fresh object only.  The heap holds table values indexed by
object identity; each Python statement of `load_data` is one allocation or
one in-place write. -/

inductive Value where
  | vstr : String → Value
  | vdate : Date → Value
  | vint : Nat → Value
  | vmissing : Value
deriving DecidableEq, Repr

/-- Row of a dynamically-typed table: named cells. -/
abbrev RowV := List (String × Value)

/-- Dynamically-typed table value. -/
abbrev TableV := List RowV

/-- Heap of table objects; an object identity is an index. -/
abbrev TableHeap := List TableV

/-- Cell lookup by column name. -/
def getColV (r : RowV) (c : String) : Option Value :=
  (r.find? (fun p => p.1 == c)).map (fun p => p.2)

/-- Column-cell assignment on one row: overwrite the named cell, or append
it when the column does not exist yet. -/
def setColV (r : RowV) (c : String) (v : Value) : RowV :=
  if r.any (fun p => p.1 == c) then r.map (fun p => if p.1 == c then (c, v) else p)
  else r ++ [(c, v)]

/-- Row kept by `dropna()` in the dynamic model. -/
def rowComplete (r : RowV) : Bool :=
  r.all (fun p => match p.2 with
    | Value.vmissing => false
    | _ => true)

/-- Per-row effect of `pd.to_datetime` on the `date_added` column. -/
def toDatetimeRow (r : RowV) : Option RowV :=
  match getColV r "date_added" with
  | some (Value.vstr s) =>
    match parseDate s with
    | some d => some (setColV r "date_added" (Value.vdate d))
    | none => none
  | _ => none

/-- Per-row effect of deriving an integer column from the parsed
`date_added` column. -/
def deriveRow (dst : String) (f : Date → Nat) (r : RowV) : RowV :=
  match getColV r "date_added" with
  | some (Value.vdate d) => setColV r dst (Value.vint (f d))
  | _ => r

/-- Heap-level embedding of `load_data`: allocate the parsed raw table,
allocate its copy, drop incomplete rows, then perform the four column
assignments as in-place writes to the copy.  Returns the final heap and the
identities of the raw and cleaned objects. -/
def load_data_st (h : TableHeap) (rawT : TableV) : Option (TableHeap × Nat × Nat) :=
  let h1 := h ++ [rawT]
  let rawId := h.length
  let d0 := rawT.filter rowComplete
  let h2 := h1 ++ [d0]
  let dfId := h1.length
  match mapRows toDatetimeRow d0 with
  | none => none
  | some d1 =>
    let h3 := h2.set dfId d1
    let d2 := d1.map (deriveRow "day_added" Date.day)
    let h4 := h3.set dfId d2
    let d3 := d2.map (deriveRow "year_added" Date.year)
    let h5 := h4.set dfId d3
    let d4 := d3.map (deriveRow "month_added" Date.month)
    let h6 := h5.set dfId d4
    some (h6, rawId, dfId)

/-- Statement-threaded form of `plot_type_distribution`: the body of the
source function only reads `df` (`sns.countplot(x=df['type'])`,
`df['type'].value_counts()`), so the table it hands back is the one it
received. -/
def plot_type_distribution_st (df : List Record) :
    Except String TypeDistFig × List Record :=
  (plot_type_distribution df, df)

/-- Statement-threaded form of `plot_rating_distribution`: the body only
reads `df`. -/
def plot_rating_distribution_st (df : List Record) : RatingFig × List Record :=
  (plot_rating_distribution df, df)

/-- Statement-threaded form of `plot_type_vs_rating`: the body only reads
`df`. -/
def plot_type_vs_rating_st (df : List Record) : TypeRatingFig × List Record :=
  (plot_type_vs_rating df, df)

/-! ## Derived quantities and fixtures -/

/-- Non-null values of the `type` column. -/
def typeValues (df : List Record) : List String :=
  (df.map (fun r => r.type)).filterMap id

/-- Number of records whose type is `Movie`. -/
def movieCount (df : List Record) : Nat :=
  (typeValues df).count "Movie"

/-- Number of records whose type is `TV Show`. -/
def tvCount (df : List Record) : Nat :=
  (typeValues df).count "TV Show"

/-- Number of distinct non-null values of the `type` column. -/
def numDistinctTypes (df : List Record) : Nat :=
  (distinctKeys (typeValues df)).length

/-- Complete example row: a movie added on September 25, 2021. -/
def exRowM : Record :=
  ⟨some "s1", some "Movie", some "Dune", some "Denis", some "Timothee",
   some "USA", some "September 25, 2021", some "2021", some "PG", some "90 min",
   some "Drama", some "desc"⟩

/-- Complete example row: a TV show from two countries, added January 2, 2020. -/
def exRowT : Record :=
  ⟨some "s2", some "TV Show", some "Dark", some "Baran", some "Louis",
   some "USA, India", some "January 2, 2020", some "2019", some "PG", some "1 Season",
   some "Thriller", some "desc"⟩

/-- Example row with a missing `type` and a missing `country`. -/
def exRowMissing : Record :=
  ⟨some "s3", none, some "Lost", some "JJ", some "Evangeline",
   none, some "March 3, 2015", some "2004", some "TV-14", some "6 Seasons",
   some "Drama", some "desc"⟩

/-- Cleaned counterpart of `exRowM`. -/
def exCleanedM : Cleaned := ⟨exRowM, ⟨2021, 9, 25⟩, 25, 2021, 9⟩

/-- Cleaned counterpart of `exRowT`. -/
def exCleanedT : Cleaned := ⟨exRowT, ⟨2020, 1, 2⟩, 2, 2020, 1⟩

/-- Two-row input table: one complete row and one with missing fields. -/
def exTable : List Record := [exRowM, exRowMissing]

/-- Table with two TV shows and one movie. -/
def exTvMajority : List Record := [exRowT, exRowT, exRowM]

/-- Table with two movies and one TV show. -/
def exMovieMajority : List Record := [exRowM, exRowM, exRowT]

/-- Table containing a single movie. -/
def exOnlyMovies : List Record := [exRowM]

/-- Table whose only record has a missing `type`. -/
def exMissingType : List Record := [exRowMissing]

/-- Cleaned table whose `country` column holds `"USA, India"` and `"USA"`. -/
def exWC : List Cleaned := [exCleanedT, exCleanedM]

/-! ## Lemmas about dates and loading -/

theorem monthLength_le (leap : Bool) (m : Nat) : monthLength leap m ≤ 31 := by
  unfold monthLength
  repeat' split
  all_goals omega

theorem mkValidDate_bounds {y m dd : Nat} {d : Date}
    (h : mkValidDate y m dd = some d) :
    1 ≤ d.day ∧ d.day ≤ 31 ∧ 1 ≤ d.month ∧ d.month ≤ 12 ∧
    1677 ≤ d.year ∧ d.year ≤ 2262 := by
  unfold mkValidDate at h
  split at h
  · rename_i hcond
    cases h
    simp only [validDate, inTimestampBounds, dateKey, Bool.and_eq_true,
      decide_eq_true_eq] at hcond
    obtain ⟨⟨⟨⟨hm1, hm2⟩, hd1⟩, hd2⟩, hlo, hhi⟩ := hcond
    have hml31 := monthLength_le (isLeap y) m
    dsimp only at *
    refine ⟨hd1, by omega, hm1, hm2, by omega, by omega⟩
  · cases h

theorem parseDate_bounds {s : String} {d : Date} (h : parseDate s = some d) :
    1 ≤ d.day ∧ d.day ≤ 31 ∧ 1 ≤ d.month ∧ d.month ≤ 12 ∧
    1677 ≤ d.year ∧ d.year ≤ 2262 := by
  unfold parseDate at h
  split at h
  · split at h
    · exact mkValidDate_bounds h
    · exact Option.noConfusion h
  · exact Option.noConfusion h

theorem mapRows_inv {α β : Type} {f : α → Option β} {g : β → α}
    (hfg : ∀ x y, f x = some y → g y = x) :
    ∀ {l : List α} {l' : List β}, mapRows f l = some l' → l'.map g = l := by
  intro l
  induction l with
  | nil =>
    intro l' h
    simp only [mapRows, Option.some.injEq] at h
    subst h
    rfl
  | cons x xs ih =>
    intro l' h
    unfold mapRows at h
    split at h
    · rename_i y ys hy hys
      cases h
      simp only [List.map_cons, hfg x y hy, ih hys]
    · cases h

theorem mapRows_mem {α β : Type} {f : α → Option β} :
    ∀ {l : List α} {l' : List β}, mapRows f l = some l' →
      ∀ y ∈ l', ∃ x ∈ l, f x = some y := by
  intro l
  induction l with
  | nil =>
    intro l' h
    simp only [mapRows, Option.some.injEq] at h
    subst h
    intro y hy
    cases hy
  | cons x xs ih =>
    intro l' h
    unfold mapRows at h
    split at h
    · rename_i y ys hy hys
      cases h
      intro z hz
      rcases List.mem_cons.mp hz with hz | hz
      · exact ⟨x, List.mem_cons_self x xs, hz ▸ hy⟩
      · obtain ⟨w, hw, hfw⟩ := ih hys z hz
        exact ⟨w, List.mem_cons_of_mem x hw, hfw⟩
    · cases h

theorem toCleaned_some {r : Record} {c : Cleaned} (h : toCleaned r = some c) :
    ∃ s d, r.date_added = some s ∧ parseDate s = some d ∧
      c = ⟨r, d, d.day, d.year, d.month⟩ := by
  unfold toCleaned at h
  split at h
  · cases h
  · rename_i s hs
    split at h
    · cases h
    · rename_i d hd
      cases h
      exact ⟨s, d, hs, hd, rfl⟩

theorem toCleaned_orig {r : Record} {c : Cleaned} (h : toCleaned r = some c) :
    c.orig = r := by
  obtain ⟨s, d, _, _, hc⟩ := toCleaned_some h
  subst hc
  rfl

/-- C1: for every valid input table the loader returns the raw table
verbatim and a cleaned table whose records are exactly the raw records with
no missing field; hence raw row count is at least cleaned row count and
cleaned row count equals the number of raw rows with zero missing fields. -/
theorem loader_clean_split (raw : List Record) (out : List Record × List Cleaned)
    (h : load_data raw = some out) :
    out.1 = raw ∧
    out.2.map Cleaned.orig = raw.filter Record.complete ∧
    out.2.length ≤ raw.length ∧
    out.2.length = (raw.filter Record.complete).length := by
  unfold load_data at h
  split at h
  · cases h
  · rename_i cleaned hmap
    cases h
    have hinv := mapRows_inv (fun r c hc => toCleaned_orig hc) hmap
    have hlen : cleaned.length = (raw.filter Record.complete).length := by
      rw [← hinv, List.length_map]
    exact ⟨rfl, hinv, hlen ▸ List.length_filter_le _ raw, hlen⟩

theorem loader_clean_split_witness :
    load_data exTable = some (exTable, [exCleanedM]) ∧
    ((exTable, [exCleanedM]).1 = exTable ∧
     [exCleanedM].map Cleaned.orig = exTable.filter Record.complete ∧
     [exCleanedM].length ≤ exTable.length ∧
     [exCleanedM].length = (exTable.filter Record.complete).length) :=
  ⟨by decide, loader_clean_split exTable (exTable, [exCleanedM]) (by decide)⟩

/-- C2: every record of the cleaned table has `day_added` in `[1,31]`,
`month_added` in `[1,12]` and a 4-digit `year_added`, and the three derived
fields are exactly the components of the parse of that record's original
`date_added` value. -/
theorem cleaned_date_fields_valid (raw : List Record) (out : List Record × List Cleaned)
    (h : load_data raw = some out) :
    ∀ c ∈ out.2,
      (1 ≤ c.day_added ∧ c.day_added ≤ 31) ∧
      (1 ≤ c.month_added ∧ c.month_added ≤ 12) ∧
      (1000 ≤ c.year_added ∧ c.year_added ≤ 9999) ∧
      ∃ s, c.orig.date_added = some s ∧
        parseDate s = some ⟨c.year_added, c.month_added, c.day_added⟩ := by
  unfold load_data at h
  split at h
  · cases h
  · rename_i cleaned hmap
    cases h
    intro c hc
    obtain ⟨r, hr, hrc⟩ := mapRows_mem hmap c hc
    obtain ⟨s, d, hs, hpd, hceq⟩ := toCleaned_some hrc
    subst hceq
    obtain ⟨h1, h2, h3, h4, h5, h6⟩ := parseDate_bounds hpd
    have h5' : 1000 ≤ d.year := le_trans (by omega) h5
    have h6' : d.year ≤ 9999 := le_trans h6 (by omega)
    exact ⟨⟨h1, h2⟩, ⟨h3, h4⟩, ⟨h5', h6'⟩, s, hs, hpd⟩

theorem cleaned_date_fields_valid_witness :
    load_data exTable = some (exTable, [exCleanedM]) ∧
    (∀ c ∈ (exTable, [exCleanedM]).2,
      (1 ≤ c.day_added ∧ c.day_added ≤ 31) ∧
      (1 ≤ c.month_added ∧ c.month_added ≤ 12) ∧
      (1000 ≤ c.year_added ∧ c.year_added ≤ 9999) ∧
      ∃ s, c.orig.date_added = some s ∧
        parseDate s = some ⟨c.year_added, c.month_added, c.day_added⟩) :=
  ⟨by decide, cleaned_date_fields_valid exTable (exTable, [exCleanedM]) (by decide)⟩

/-! ## Lemmas about counting and ordering -/

theorem distinctAux_cons_mem {y : String} {ys seen : List String} (h : y ∈ seen) :
    distinctAux (y :: ys) seen = distinctAux ys seen := by
  simp only [distinctAux, if_pos h]

theorem distinctAux_cons_notmem {y : String} {ys seen : List String} (h : y ∉ seen) :
    distinctAux (y :: ys) seen = y :: distinctAux ys (y :: seen) := by
  simp only [distinctAux, if_neg h]

theorem distinctAux_congr : ∀ (l s₁ s₂ : List String),
    (∀ a, a ∈ s₁ ↔ a ∈ s₂) → distinctAux l s₁ = distinctAux l s₂ := by
  intro l
  induction l with
  | nil => intro s₁ s₂ _; rfl
  | cons y ys ih =>
    intro s₁ s₂ hs
    by_cases hb : y ∈ s₂
    · rw [distinctAux_cons_mem ((hs y).mpr hb), distinctAux_cons_mem hb]
      exact ih _ _ hs
    · rw [distinctAux_cons_notmem (fun hc => hb ((hs y).mp hc)),
        distinctAux_cons_notmem hb]
      refine congrArg (y :: ·) (ih _ _ (fun a => ?_))
      simp only [List.mem_cons, hs a]

theorem distinctAux_cons_filter : ∀ (l seen : List String) (x : String),
    distinctAux l (x :: seen) = distinctAux (l.filter (fun y => y != x)) seen := by
  intro l
  induction l with
  | nil => intro seen x; rfl
  | cons y ys ih =>
    intro seen x
    by_cases hyx : y = x
    · subst hyx
      rw [List.filter_cons_of_neg (by simp), distinctAux_cons_mem (List.mem_cons_self y seen)]
      exact ih seen y
    · rw [List.filter_cons_of_pos (by simp only [bne_iff_ne, ne_eq]; exact hyx)]
      by_cases hsy : y ∈ seen
      · rw [distinctAux_cons_mem (List.mem_cons_of_mem x hsy), distinctAux_cons_mem hsy]
        exact ih seen x
      · rw [distinctAux_cons_notmem (by
          simp only [List.mem_cons]
          exact fun hc => hc.elim hyx hsy),
          distinctAux_cons_notmem hsy]
        refine congrArg (y :: ·) ?_
        rw [distinctAux_congr ys (y :: x :: seen) (x :: y :: seen)
          (fun a => by simp only [List.mem_cons]; tauto)]
        exact ih (y :: seen) x

theorem distinctKeys_cons (x : String) (xs : List String) :
    distinctKeys (x :: xs) = x :: distinctKeys (xs.filter (fun y => y != x)) := by
  unfold distinctKeys
  rw [distinctAux_cons_notmem (List.not_mem_nil x)]
  exact congrArg (x :: ·) (distinctAux_cons_filter xs [] x)

theorem mem_of_mem_distinctAux : ∀ {l seen : List String} {k : String},
    k ∈ distinctAux l seen → k ∈ l := by
  intro l
  induction l with
  | nil => intro seen k h; cases h
  | cons y ys ih =>
    intro seen k h
    simp only [distinctAux] at h
    split at h
    · exact List.mem_cons_of_mem y (ih h)
    · rcases List.mem_cons.mp h with h | h
      · exact h ▸ List.mem_cons_self y ys
      · exact List.mem_cons_of_mem y (ih h)

theorem distinctKeys_subset {vs : List String} {k : String}
    (h : k ∈ distinctKeys vs) : k ∈ vs :=
  mem_of_mem_distinctAux h

theorem count_filter_ne {x k : String} (hk : k ≠ x) (xs : List String) :
    (xs.filter (fun y => y != x)).count k = xs.count k :=
  List.count_filter (by simp only [bne_iff_ne, ne_eq]; exact hk)

theorem length_filter_add_count (x : String) (xs : List String) :
    (xs.filter (fun y => y != x)).length + xs.count x = xs.length := by
  induction xs with
  | nil => rfl
  | cons y ys ih =>
    by_cases h : y = x
    · subst h
      rw [List.filter_cons_of_neg (by simp), List.count_cons_self, List.length_cons]
      omega
    · rw [List.filter_cons_of_pos (by simp only [bne_iff_ne, ne_eq]; exact h),
        List.count_cons_of_ne (fun hh => h hh.symm), List.length_cons,
        List.length_cons]
      omega

theorem distinctKeys_counts_sum :
    ∀ (n : Nat) (vs : List String), vs.length ≤ n →
      ((distinctKeys vs).map (fun k => vs.count k)).sum = vs.length := by
  intro n
  induction n with
  | zero =>
    intro vs h
    have hnil : vs = [] := List.eq_nil_of_length_eq_zero (Nat.le_zero.mp h)
    subst hnil
    rfl
  | succ n ih =>
    intro vs h
    match vs with
    | [] => rfl
    | x :: xs =>
      rw [distinctKeys_cons]
      simp only [List.map_cons, List.sum_cons]
      have hys : (xs.filter (fun y => y != x)).length ≤ n :=
        le_trans (List.length_filter_le _ _) (Nat.le_of_succ_le_succ h)
      have hIH := ih _ hys
      have hmap : (distinctKeys (xs.filter (fun y => y != x))).map
            (fun k => (x :: xs).count k)
          = (distinctKeys (xs.filter (fun y => y != x))).map
            (fun k => (xs.filter (fun y => y != x)).count k) := by
        apply List.map_congr_left
        intro k hk
        have hkm := distinctKeys_subset hk
        have hkx : k ≠ x := bne_iff_ne.mp (List.mem_filter.mp hkm).2
        rw [List.count_cons_of_ne hkx, count_filter_ne hkx]
      rw [hmap, hIH]
      have hl := length_filter_add_count x xs
      rw [List.count_cons_self, List.length_cons]
      omega

theorem value_counts_snd_sum (xs : List (Option String)) :
    ((value_counts xs).map (fun p => p.2)).sum = (xs.filterMap id).length := by
  unfold value_counts
  have hperm := List.perm_insertionSort countGE
    ((distinctKeys (xs.filterMap id)).map (fun k => (k, (xs.filterMap id).count k)))
  rw [(hperm.map (fun p => p.2)).sum_eq, List.map_map]
  exact distinctKeys_counts_sum (xs.filterMap id).length _ le_rfl

theorem value_counts_length (xs : List (Option String)) :
    (value_counts xs).length = (distinctKeys (xs.filterMap id)).length := by
  unfold value_counts
  rw [List.length_insertionSort, List.length_map]

theorem filterMap_id_length_of_all_isSome :
    ∀ (l : List (Option String)), (∀ o ∈ l, o.isSome = true) →
      (l.filterMap id).length = l.length := by
  intro l
  induction l with
  | nil => intro _; rfl
  | cons o os ih =>
    intro h
    match o, h o (List.mem_cons_self o os) with
    | some a, _ =>
      simp only [List.filterMap_cons, id, List.length_cons]
      rw [ih (fun x hx => h x (List.mem_cons_of_mem _ hx))]

/-- C4 (amended): the per-type counts computed by the type-distribution
renderer sum to the number of raw rows with a non-missing `type` value;
when every raw row has a `type` value this equals the raw row count. -/
theorem type_counts_sum_nonnull (df : List Record) :
    ((value_counts (df.map (fun r => r.type))).map (fun p => p.2)).sum
      = (typeValues df).length ∧
    ((∀ r ∈ df, r.type.isSome = true) →
      ((value_counts (df.map (fun r => r.type))).map (fun p => p.2)).sum
        = df.length) := by
  constructor
  · exact value_counts_snd_sum (df.map (fun r => r.type))
  · intro hall
    rw [value_counts_snd_sum (df.map (fun r => r.type))]
    rw [filterMap_id_length_of_all_isSome _ (fun o ho => by
      obtain ⟨r, hr, hro⟩ := List.mem_map.mp ho
      exact hro ▸ hall r hr)]
    exact List.length_map df _

theorem type_counts_sum_nonnull_witness :
    (∀ r ∈ exMovieMajority, r.type.isSome = true) ∧
    (((value_counts (exMovieMajority.map (fun r => r.type))).map (fun p => p.2)).sum
        = (typeValues exMovieMajority).length ∧
     ((∀ r ∈ exMovieMajority, r.type.isSome = true) →
      ((value_counts (exMovieMajority.map (fun r => r.type))).map (fun p => p.2)).sum
        = exMovieMajority.length)) :=
  ⟨by decide, type_counts_sum_nonnull exMovieMajority⟩

/-- C4 counterexample: on a table whose single row has a missing `type`
value the per-type counts sum to 0, not to the raw row count 1, because
`value_counts` drops nulls. -/
theorem type_counts_sum_counterexample :
    ((value_counts (exMissingType.map (fun r => r.type))).map (fun p => p.2)).sum = 0 ∧
    exMissingType.length = 1 ∧
    ((value_counts (exMissingType.map (fun r => r.type))).map (fun p => p.2)).sum
      ≠ exMissingType.length := by
  refine ⟨rfl, rfl, by decide⟩

/-- C5: the rating-distribution bar categories are ordered non-increasing
by count from left to right, and the type-vs-rating chart's x-axis uses
exactly that order. -/
theorem rating_order_descending (df : List Record) :
    List.Sorted countGE (plot_rating_distribution df).barCounts ∧
    (plot_rating_distribution df).barOrder
      = ((plot_rating_distribution df).barCounts).map (fun p => p.1) ∧
    (plot_type_vs_rating df).xOrder = (plot_rating_distribution df).barOrder :=
  ⟨List.sorted_insertionSort countGE _, rfl, rfl⟩

theorem distinctKeys_all_eq (a : String) (vs : List String) (hne : vs ≠ [])
    (hall : ∀ v ∈ vs, v = a) : distinctKeys vs = [a] := by
  match vs with
  | [] => exact absurd rfl hne
  | v :: xs =>
    have hva : v = a := hall v (List.mem_cons_self v xs)
    subst hva
    rw [distinctKeys_cons]
    rw [List.filter_eq_nil_iff.mpr (fun w hw => by
      rw [hall w (List.mem_cons_of_mem v hw)]
      simp)]
    rfl

theorem distinctKeys_cons_pair {a b : String} (hab : a ≠ b) (xs : List String)
    (hall : ∀ v ∈ xs, v = a ∨ v = b) (hb : b ∈ xs) :
    distinctKeys (a :: xs) = [a, b] := by
  rw [distinctKeys_cons]
  refine congrArg (a :: ·) (distinctKeys_all_eq b _ ?_ ?_)
  · exact List.ne_nil_of_mem (List.mem_filter.mpr
      ⟨hb, by simp only [bne_iff_ne, ne_eq]; exact fun h => hab h.symm⟩)
  · intro w hw
    obtain ⟨hwx, hwna⟩ := List.mem_filter.mp hw
    rcases hall w hwx with h | h
    · exact absurd h (bne_iff_ne.mp hwna)
    · exact h

theorem distinctKeys_pair {a b : String} (hab : a ≠ b) (vs : List String)
    (hall : ∀ v ∈ vs, v = a ∨ v = b) (ha : a ∈ vs) (hb : b ∈ vs) :
    distinctKeys vs = [a, b] ∨ distinctKeys vs = [b, a] := by
  match vs with
  | [] => cases ha
  | v :: xs =>
    have hall' : ∀ w ∈ xs, w = a ∨ w = b :=
      fun w hw => hall w (List.mem_cons_of_mem v hw)
    rcases hall v (List.mem_cons_self v xs) with hv | hv
    · subst hv
      have hbx : b ∈ xs := by
        rcases List.mem_cons.mp hb with h | h
        · exact absurd h.symm hab
        · exact h
      exact Or.inl (distinctKeys_cons_pair hab xs hall' hbx)
    · subst hv
      have hax : a ∈ xs := by
        rcases List.mem_cons.mp ha with h | h
        · exact absurd h hab
        · exact h
      exact Or.inr (distinctKeys_cons_pair (Ne.symm hab) xs
        (fun w hw => (hall' w hw).symm) hax)

theorem insertionSort_pair_ge {p q : String × Nat} (h : q.2 ≤ p.2) :
    List.insertionSort countGE [p, q] = [p, q] := by
  simp only [List.insertionSort, List.orderedInsert]
  exact if_pos h

theorem insertionSort_pair_lt {p q : String × Nat} (h : ¬ q.2 ≤ p.2) :
    List.insertionSort countGE [p, q] = [q, p] := by
  simp only [List.insertionSort, List.orderedInsert]
  exact if_neg h

theorem value_counts_type_pair (df : List Record)
    (hall : ∀ v ∈ typeValues df, v = "Movie" ∨ v = "TV Show")
    (hm : "Movie" ∈ typeValues df) (ht : "TV Show" ∈ typeValues df)
    (hgt : tvCount df < movieCount df) :
    value_counts (df.map (fun r => r.type))
      = [("Movie", movieCount df), ("TV Show", tvCount df)] := by
  have hab : ("Movie" : String) ≠ "TV Show" := by decide
  unfold value_counts
  dsimp only
  rcases distinctKeys_pair hab (typeValues df) hall hm ht with h | h
  · rw [show distinctKeys ((df.map (fun r => r.type)).filterMap id)
        = ["Movie", "TV Show"] from h]
    simp only [List.map_cons, List.map_nil]
    exact insertionSort_pair_ge (le_of_lt hgt)
  · rw [show distinctKeys ((df.map (fun r => r.type)).filterMap id)
        = ["TV Show", "Movie"] from h]
    simp only [List.map_cons, List.map_nil]
    exact insertionSort_pair_lt (not_le.mpr hgt)

/-- C3 (amended): on an input table whose `type` values are exactly `Movie`
and `TV Show` (both present, none missing) and with strictly more movies
than TV shows, the pie renders the descending counts with the hard-coded
labels `['Movie', 'TV Show']` attached positionally, so the `Movie` wedge
shows the movie count and the `TV Show` wedge the TV-show count, the second
wedge exploded by 0.05 and percentage labels rounded to one decimal.  (When
TV shows outnumber movies the positional labels attach to the wrong counts;
see the counterexample.) -/
theorem type_pie_positional (df : List Record)
    (hall : ∀ v ∈ typeValues df, v = "Movie" ∨ v = "TV Show")
    (hm : "Movie" ∈ typeValues df) (ht : "TV Show" ∈ typeValues df)
    (hgt : tvCount df < movieCount df) :
    plot_type_distribution df = Except.ok
      ⟨countplot (df.map (fun r => r.type)),
       ⟨[("Movie", movieCount df), ("TV Show", tvCount df)], [0, 5], true, 90, 1⟩⟩ := by
  unfold plot_type_distribution
  rw [value_counts_type_pair df hall hm ht hgt]
  rfl

theorem type_pie_positional_witness :
    ((∀ v ∈ typeValues exMovieMajority, v = "Movie" ∨ v = "TV Show") ∧
     "Movie" ∈ typeValues exMovieMajority ∧
     "TV Show" ∈ typeValues exMovieMajority ∧
     tvCount exMovieMajority < movieCount exMovieMajority) ∧
    plot_type_distribution exMovieMajority = Except.ok
      ⟨countplot (exMovieMajority.map (fun r => r.type)),
       ⟨[("Movie", movieCount exMovieMajority),
         ("TV Show", tvCount exMovieMajority)], [0, 5], true, 90, 1⟩⟩ :=
  ⟨by decide, type_pie_positional exMovieMajority
    (by decide) (by decide) (by decide) (by decide)⟩

/-- C3 counterexample: on a table with two TV shows and one movie the wedge
labelled `Movie` has size 2 — the TV Show count — while the table holds
exactly one movie record, so the Movie wedge does not show the Movie count:
the hard-coded labels attach positionally to the descending-count sizes. -/
theorem type_pie_label_mismatch :
    (plot_type_distribution exTvMajority).map (fun f => f.pieChart.wedges)
      = Except.ok [("Movie", 2), ("TV Show", 1)] ∧
    movieCount exTvMajority = 1 ∧ tvCount exTvMajority = 2 :=
  ⟨rfl, rfl, rfl⟩

theorem pie_ok {sizes : List Nat} {labels : List String} {explode : List Nat}
    (hl : labels.length = sizes.length) (he : explode.length = sizes.length) :
    pie sizes labels explode = Except.ok ⟨labels.zip sizes, explode, true, 90, 1⟩ := by
  unfold pie
  rw [if_neg (fun hc => hc hl), if_neg (fun hc => hc he)]

theorem pie_error {sizes : List Nat} {labels : List String} (explode : List Nat)
    (hl : labels.length ≠ sizes.length) :
    pie sizes labels explode = Except.error "label must be of length x" := by
  unfold pie
  rw [if_pos hl]

/-- C10: the type-distribution pie hard-codes two labels, so the render
call fails with an error exactly when the table does not contain exactly
two distinct non-null `type` values; in particular it fails on a table of
movies only. -/
theorem type_pie_arity_error :
    (∀ df : List Record,
      (∃ msg, plot_type_distribution df = Except.error msg)
        ↔ numDistinctTypes df ≠ 2) ∧
    (∃ msg, plot_type_distribution exOnlyMovies = Except.error msg) := by
  constructor
  · intro df
    have hlen : ((value_counts (df.map (fun r => r.type))).map
        (fun p : String × Nat => p.2)).length = numDistinctTypes df := by
      rw [List.length_map, value_counts_length]
      rfl
    by_cases h2 : numDistinctTypes df = 2
    · unfold plot_type_distribution
      dsimp only
      rw [pie_ok (by rw [hlen, h2]; rfl) (by rw [hlen, h2]; rfl)]
      simp [h2]
    · have hne : (["Movie", "TV Show"] : List String).length
          ≠ ((value_counts (df.map (fun r => r.type))).map
              (fun p : String × Nat => p.2)).length := by
        have h2l : (["Movie", "TV Show"] : List String).length = 2 := rfl
        rw [h2l, hlen]
        exact fun hh => h2 hh.symm
      unfold plot_type_distribution
      dsimp only
      rw [pie_error [0, 5] hne]
      exact iff_of_true ⟨"label must be of length x", rfl⟩ h2
  · exact ⟨"label must be of length x", rfl⟩

/-! ## Lemmas about tokenisation -/

theorem toList_append (a b : String) : (a ++ b).toList = a.toList ++ b.toList :=
  String.data_append a b

theorem mk_toList (a : String) : (⟨a.toList⟩ : String) = a := rfl

theorem toList_mk (l : List Char) : (⟨l⟩ : String).toList = l := rfl

theorem mk_toList_append (a b : String) :
    (⟨a.toList ++ b.toList⟩ : String) = a ++ b := rfl

theorem splitWordsAux_append (ys : List Char) :
    ∀ (xs acc : List Char),
      splitWordsAux (xs ++ ' ' :: ys) acc
        = splitWordsAux xs acc ++ splitWordsAux ys [] := by
  intro xs
  induction xs with
  | nil =>
    intro acc
    by_cases h : acc = []
    · simp [splitWordsAux, h]
    · simp [splitWordsAux, h]
  | cons c cs ih =>
    intro acc
    by_cases hc : c = ' '
    · subst hc
      by_cases h : acc = []
      · simp [splitWordsAux, h, ih]
      · simp [splitWordsAux, h, ih]
    · simp [splitWordsAux, hc, ih]

theorem splitWords_append (xs ys : List Char) :
    splitWords (xs ++ ' ' :: ys) = splitWords xs ++ splitWords ys :=
  splitWordsAux_append ys xs []

theorem tokens_append_space (a b : String) :
    tokens (a ++ " " ++ b) = tokens a ++ tokens b := by
  unfold tokens
  have hdata : (a ++ " " ++ b).toList = a.toList ++ ' ' :: b.toList := by
    rw [toList_append, toList_append]
    simp
  rw [hdata, splitWords_append, List.map_append]

theorem tokens_join : ∀ vals : List String,
    tokens (joinSp vals) = (vals.map (fun v => tokens v)).flatten := by
  intro vals
  induction vals with
  | nil => rfl
  | cons v rest ih =>
    cases rest with
    | nil => simp [joinSp, tokens]
    | cons w ws =>
      show tokens (v ++ " " ++ joinSp (w :: ws)) = _
      rw [tokens_append_space, ih]
      simp

theorem splitWordsAux_no_space :
    ∀ (l acc : List Char), (∀ c ∈ l, c ≠ ' ') →
      splitWordsAux l acc
        = if acc.reverse ++ l = [] then [] else [acc.reverse ++ l] := by
  intro l
  induction l with
  | nil =>
    intro acc _
    by_cases ha : acc = []
    · simp [splitWordsAux, ha]
    · simp [splitWordsAux, ha]
  | cons c cs ih =>
    intro acc h
    have hc : c ≠ ' ' := h c (List.mem_cons_self c cs)
    simp only [splitWordsAux, if_neg hc]
    rw [ih (c :: acc) (fun x hx => h x (List.mem_cons_of_mem c hx))]
    simp

theorem splitWords_no_space (l : List Char) (hne : l ≠ []) (h : ∀ c ∈ l, c ≠ ' ') :
    splitWords l = [l] := by
  unfold splitWords
  rw [splitWordsAux_no_space l [] h]
  simp [hne]

/-- C6: the word-cloud input text is the single-space-separated
concatenation of the column's comma-stripped values, so its token list is
the row-by-row concatenation of each value's comma-split tokens; in
particular a table whose `country` column holds `"USA, India"` and `"USA"`
yields the token `USA` twice and `India` once. -/
theorem wordcloud_text_tokens :
    (∀ (df : List Cleaned) (column : Field) (title : String),
      tokens (generate_wordcloud df column title).text
        = (df.map (fun r =>
            tokens (stripCommas (astypeStr (r.orig.get column))))).flatten) ∧
    (tokens (generate_wordcloud exWC Field.country "Countries").text).count "USA" = 2 ∧
    (tokens (generate_wordcloud exWC Field.country "Countries").text).count "India" = 1 := by
  refine ⟨?_, rfl, rfl⟩
  intro df column title
  show tokens (wordcloudText df column) = _
  unfold wordcloudText
  rw [tokens_join, List.map_map]
  rfl

/-- C9: deleting commas inserts no separator, so a comma not followed by
whitespace merges its neighbours into one token (`"USA,India"` becomes
`USAIndia`), while a comma followed by a space yields two tokens. -/
theorem comma_strip_merges_tokens :
    (∀ a b : String, a.toList ≠ [] → b.toList ≠ [] →
      (∀ c ∈ a.toList, c ≠ ' ' ∧ c ≠ ',') →
      (∀ c ∈ b.toList, c ≠ ' ' ∧ c ≠ ',') →
      tokens (stripCommas (a ++ "," ++ b)) = [a ++ b] ∧
      tokens (stripCommas (a ++ ", " ++ b)) = [a, b]) ∧
    tokens (stripCommas "USA,India") = ["USAIndia"] ∧
    tokens (stripCommas "USA, India") = ["USA", "India"] := by
  refine ⟨?_, rfl, rfl⟩
  intro a b ha hb hca hcb
  have hfa : a.toList.filter (fun c => c != ',') = a.toList :=
    List.filter_eq_self.mpr (fun c hc => bne_iff_ne.mpr (hca c hc).2)
  have hfb : b.toList.filter (fun c => c != ',') = b.toList :=
    List.filter_eq_self.mpr (fun c hc => bne_iff_ne.mpr (hcb c hc).2)
  constructor
  · unfold tokens stripCommas
    have h1 : (a ++ "," ++ b).toList = a.toList ++ ',' :: b.toList := by
      rw [toList_append, toList_append]
      simp
    rw [toList_mk, h1, List.filter_append, hfa,
      List.filter_cons_of_neg (by simp), hfb]
    rw [splitWords_no_space (a.toList ++ b.toList)
      (fun hh => ha (List.append_eq_nil.mp hh).1)
      (fun c hc => by
        rcases List.mem_append.mp hc with h | h
        · exact (hca c h).1
        · exact (hcb c h).1)]
    simp only [List.map_cons, List.map_nil]
    rw [mk_toList_append]
  · unfold tokens stripCommas
    have h1 : (a ++ ", " ++ b).toList = a.toList ++ ',' :: ' ' :: b.toList := by
      rw [toList_append, toList_append]
      simp
    rw [toList_mk, h1, List.filter_append, hfa,
      List.filter_cons_of_neg (by simp),
      List.filter_cons_of_pos (by simp), hfb]
    rw [splitWords_append, splitWords_no_space a.toList ha
      (fun c hc => (hca c hc).1),
      splitWords_no_space b.toList hb (fun c hc => (hcb c hc).1)]
    simp only [List.cons_append, List.nil_append, List.map_cons, List.map_nil]
    rw [mk_toList, mk_toList]

theorem comma_strip_merges_tokens_witness :
    ("USA".toList ≠ [] ∧ "India".toList ≠ [] ∧
     (∀ c ∈ "USA".toList, c ≠ ' ' ∧ c ≠ ',') ∧
     (∀ c ∈ "India".toList, c ≠ ' ' ∧ c ≠ ',')) ∧
    (tokens (stripCommas ("USA" ++ "," ++ "India")) = ["USA" ++ "India"] ∧
     tokens (stripCommas ("USA" ++ ", " ++ "India")) = ["USA", "India"]) :=
  ⟨by decide, comma_strip_merges_tokens.1 "USA" "India"
    (by decide) (by decide) (by decide) (by decide)⟩

/-! ## Lemmas about caching and mutation -/

theorem cachedCall_spec {α β : Type} [DecidableEq α] (f : α → β) (c : Cache α β)
    (x : α) (hcon : Consistent f c) :
    (cachedCall f c x).1 = f x ∧ Consistent f (cachedCall f c x).2 ∧
    cachedCall f (cachedCall f c x).2 x = cachedCall f c x := by
  unfold cachedCall
  cases hfind : c.find? (fun p => p.1 == x) with
  | some q =>
    have hbeq := @List.find?_some _ (fun p => p.1 == x) q c hfind
    have hpx : q.1 = x := beq_iff_eq.mp hbeq
    have hfp : f q.1 = q.2 := hcon q (List.mem_of_find?_eq_some hfind)
    simp only [hfind]
    refine ⟨by rw [← hpx, hfp], hcon, trivial⟩
  | none =>
    simp only [hfind]
    refine ⟨trivial, ?_, ?_⟩
    · intro q hq
      rcases List.mem_cons.mp hq with hq | hq
      · rw [hq]
      · exact hcon q hq
    · rw [List.find?_cons_of_pos _ (by simp)]

/-- C7: `load_data` and `generate_wordcloud` are deterministic in their
cached inputs: through the `@st.cache_data` wrapper, with unchanged file
contents, a repeated call with the same argument returns the same value as
computing the function directly, and the second call changes nothing —
two runs on equal inputs are observationally equal. -/
theorem cache_deterministic :
    (∀ (files : String → List Record)
       (c : Cache String (Option (List Record × List Cleaned))) (path : String),
      Consistent (fun p => load_data (files p)) c →
      (cachedCall (fun p => load_data (files p)) c path).1 = load_data (files path) ∧
      cachedCall (fun p => load_data (files p))
          (cachedCall (fun p => load_data (files p)) c path).2 path
        = cachedCall (fun p => load_data (files p)) c path) ∧
    (∀ (c : Cache (List Cleaned × Field × String) WCFig)
       (df : List Cleaned) (column : Field) (title : String),
      Consistent (fun a => generate_wordcloud a.1 a.2.1 a.2.2) c →
      (cachedCall (fun a => generate_wordcloud a.1 a.2.1 a.2.2) c
          (df, column, title)).1 = generate_wordcloud df column title ∧
      cachedCall (fun a => generate_wordcloud a.1 a.2.1 a.2.2)
          (cachedCall (fun a => generate_wordcloud a.1 a.2.1 a.2.2) c
            (df, column, title)).2 (df, column, title)
        = cachedCall (fun a => generate_wordcloud a.1 a.2.1 a.2.2) c
            (df, column, title)) := by
  constructor
  · intro files c path hcon
    obtain ⟨h1, _, h3⟩ := cachedCall_spec (fun p => load_data (files p)) c path hcon
    exact ⟨h1, h3⟩
  · intro c df column title hcon
    obtain ⟨h1, _, h3⟩ := cachedCall_spec (fun a => generate_wordcloud a.1 a.2.1 a.2.2)
      c (df, column, title) hcon
    exact ⟨h1, h3⟩

theorem cache_deterministic_witness :
    Consistent (fun p => load_data ((fun _ => exTable) p))
      ([] : Cache String (Option (List Record × List Cleaned))) ∧
    ((cachedCall (fun p => load_data ((fun _ => exTable) p)) [] "netflix_titles.csv").1
        = load_data ((fun _ => exTable) "netflix_titles.csv") ∧
     cachedCall (fun p => load_data ((fun _ => exTable) p))
         (cachedCall (fun p => load_data ((fun _ => exTable) p)) [] "netflix_titles.csv").2
         "netflix_titles.csv"
       = cachedCall (fun p => load_data ((fun _ => exTable) p)) [] "netflix_titles.csv") :=
  ⟨fun p hp => absurd hp (List.not_mem_nil p),
   cache_deterministic.1 (fun _ => exTable) [] "netflix_titles.csv"
     (fun p hp => absurd hp (List.not_mem_nil p))⟩

/-- One-row dynamic table used to exercise the heap-level loader. -/
def exTV : TableV :=
  [[("type", Value.vstr "Movie"), ("date_added", Value.vstr "September 25, 2021")]]

/-- Expected result of `load_data_st [] exTV`. -/
def exHeapOut : TableHeap × Nat × Nat :=
  ([exTV,
    [[("type", Value.vstr "Movie"),
      ("date_added", Value.vdate ⟨2021, 9, 25⟩),
      ("day_added", Value.vint 25),
      ("year_added", Value.vint 2021),
      ("month_added", Value.vint 9)]]],
   0, 1)

/-- C8: the loader's cleaning and date derivations write only to the
freshly copied table object, leaving the raw table object (and every
pre-existing heap object) unchanged, and each of the three distribution
renderers hands back its input table unmodified — their bodies contain
reads only. -/
theorem tables_not_mutated :
    (∀ (h : TableHeap) (rawT : TableV) (out : TableHeap × Nat × Nat),
      load_data_st h rawT = some out →
      out.1[out.2.1]? = some rawT ∧
      ∀ j, j < h.length → out.1[j]? = h[j]?) ∧
    (∀ df, (plot_type_distribution_st df).2 = df) ∧
    (∀ df, (plot_rating_distribution_st df).2 = df) ∧
    (∀ df, (plot_type_vs_rating_st df).2 = df) := by
  refine ⟨?_, fun _ => rfl, fun _ => rfl, fun _ => rfl⟩
  intro h rawT out hload
  unfold load_data_st at hload
  dsimp only at hload
  cases hmr : mapRows toDatetimeRow (rawT.filter rowComplete) with
  | none =>
    rw [hmr] at hload
    cases hload
  | some d1 =>
    rw [hmr] at hload
    cases hload
    have hne : ∀ j, j < h.length + 1 → (h ++ [rawT]).length ≠ j := by
      simp only [List.length_append, List.length_cons, List.length_nil]
      omega
    constructor
    · dsimp only
      rw [List.getElem?_set_ne (hne h.length (by omega)),
        List.getElem?_set_ne (hne h.length (by omega)),
        List.getElem?_set_ne (hne h.length (by omega)),
        List.getElem?_set_ne (hne h.length (by omega)),
        List.getElem?_append_left (by simp),
        List.getElem?_append_right (le_refl h.length)]
      simp
    · intro j hj
      dsimp only
      rw [List.getElem?_set_ne (hne j (by omega)),
        List.getElem?_set_ne (hne j (by omega)),
        List.getElem?_set_ne (hne j (by omega)),
        List.getElem?_set_ne (hne j (by omega)),
        List.getElem?_append_left (by simp; omega),
        List.getElem?_append_left hj]

theorem tables_not_mutated_witness :
    load_data_st [] exTV = some exHeapOut ∧
    (exHeapOut.1[exHeapOut.2.1]? = some exTV ∧
     ∀ j, j < ([] : TableHeap).length →
       exHeapOut.1[j]? = ([] : TableHeap)[j]?) :=
  ⟨by decide, tables_not_mutated.1 [] exTV exHeapOut (by decide)⟩

end NetflixApp
